import Mathlib

/-!
Shallow embedding of `src/project3/node/count.py`, a Python 2 script that
reads whitespace-delimited `<word1> <word2> <count>` records, aggregates
them into a dict keyed by the two-word bigram (last write wins), sorts the
entries by count descending, and prints three statistics: the total count,
the most common bigram(s), and the prefix of bigrams whose cumulative count
reaches 10% of the total.

Modelling choices:
* A Python file is a list of lines (`List String`); `str.split()` with no
  arguments is modelled by `pySplit` (split on runs of whitespace, dropping
  empty tokens).
* The Python dict `data` is an association list with unique keys;
  `data[k] = v` is `dictInsert`, which overwrites the value in place when
  the key is present (last write wins) and appends otherwise.  Iteration
  order of a dict only influences the unspecified tie order of the sort, on
  which no statement below depends.
* Python `int(token)` on a whitespace-free token is `pyToInt`: an optional
  sign followed by a non-empty digit string.
* Exceptions (`IndexError` from subscripting a too-short token list or the
  empty sorted list, `ValueError` from `int`) abort the run; the run is
  embedded as `Except String`, the message recording the exception class.
* The float threshold `total = num * 0.1` is modelled with exact rational
  arithmetic, the reading the specification's design notes fix for the
  10%-threshold comparison.  Since every value the loop manipulates is an
  integer multiple of `1/10`, the running threshold is represented exactly
  by the integer `10 * total`: initialized to `num`, decreased by
  `10 * count` per entry, with the test `total < 0` becoming
  `10 * total < 0`.  This keeps the whole pipeline kernel-computable;
  theorems about the section restate the bounds as rational inequalities
  against `(num : ℚ) * (1 / 10)`.
* The script prints the banner `the total number of bigrams: <num>` and the
  section headers before the statistics; `report` returns the printed lines
  in order.  On an empty table the script prints the first two lines and
  then raises `IndexError` on `sorted_data[0]`; `report` returns that error
  for the whole run, since the claims only concern the statistics sections.
-/

/-- Tokenizer worker: walk the characters, accumulating the current token
(in reverse); whitespace ends a token, empty tokens are dropped. -/
def splitWsAux : List Char → List Char → List String
  | [], acc => if acc = [] then [] else [String.mk acc.reverse]
  | c :: cs, acc =>
    if c.isWhitespace then
      if acc = [] then splitWsAux cs []
      else String.mk acc.reverse :: splitWsAux cs []
    else splitWsAux cs (c :: acc)

/-- Python `line.split()` with no argument: split on runs of whitespace and
drop empty tokens. -/
def pySplit (s : String) : List String :=
  splitWsAux s.toList []

/-- Value of a digit string, most significant digit first. -/
def digitsVal (ds : List Char) : Nat :=
  ds.foldl (fun n c => 10 * n + (c.toNat - ('0').toNat)) 0

/-- Python 2 `int(token)` for a whitespace-free token: an optional `+` or
`-` sign followed by one or more decimal digits; anything else raises
`ValueError`, modelled as `none`. -/
def pyToInt (s : String) : Option Int :=
  match s.toList with
  | [] => none
  | c :: cs =>
    if c = '-' then
      if cs ≠ [] ∧ cs.all Char.isDigit then some (-(digitsVal cs : Int)) else none
    else if c = '+' then
      if cs ≠ [] ∧ cs.all Char.isDigit then some ((digitsVal cs : Int)) else none
    else if (c :: cs).all Char.isDigit then some ((digitsVal (c :: cs) : Int)) else none

/-- The aggregate table: the Python dict `data`, an association list from
bigram key to count with unique keys. -/
abbrev Table := List (String × Int)

/-- Python `data[k] = v`: overwrite in place if `k` is present, else append. -/
def dictInsert (k : String) (v : Int) : Table → Table
  | [] => [(k, v)]
  | (k', v') :: rest =>
    if k' = k then (k', v) :: rest else (k', v') :: dictInsert k v rest

/-- Python `data[k]` as a partial lookup: the value stored under key `k`. -/
def tableGet (k : String) : Table → Option Int
  | [] => none
  | (k', v) :: rest => if k' = k then some v else tableGet k rest

/-- Parse one input line the way the loop body does:
`line = line.split(); key = line[0] + " " + line[1]; value = int(line[2])`.
`none` when the line has fewer than three tokens or the third token is not
an integer literal. -/
def pyParseLine (line : String) : Option (String × Int) :=
  match pySplit line with
  | t0 :: t1 :: t2 :: _ => (pyToInt t2).map (fun n => (t0 ++ " " ++ t1, n))
  | _ => none

/-- One iteration of the aggregation loop
`data[line[0] + " " + line[1]] = int(line[2])`, with the two exception
classes the statement can raise. -/
def loadStep (t : Table) (line : String) : Except String Table :=
  match pySplit line with
  | t0 :: t1 :: t2 :: _ =>
    match pyToInt t2 with
    | some n => .ok (dictInsert (t0 ++ " " ++ t1) n t)
    | none => .error "ValueError: invalid literal for int()"
  | _ => .error "IndexError: list index out of range"

/-- The aggregation loop `for line in f: ...` from table `t`: an uncaught
exception aborts the whole run. -/
def loadFrom (t : Table) : List String → Except String Table
  | [] => .ok t
  | line :: rest =>
    match loadStep t line with
    | .ok t' => loadFrom t' rest
    | .error e => .error e

/-- `load`: run the aggregation loop over the input lines, starting from the
empty dict. -/
def loadLines (lines : List String) : Except String Table :=
  loadFrom [] lines

/-- `sorted_data = list(reversed(sorted(data.items(), key=operator.itemgetter(1))))`:
sort the entries by count ascending and reverse, yielding a
descending-by-count ranked sequence. -/
def rank (t : Table) : List (String × Int) :=
  (t.mergeSort (fun a b => a.2 ≤ b.2)).reverse

/-- Sum of the counts of a list of entries; `report` computes it for
`sorted_data` by the loop `num += sorted_data[i][1]`. -/
def sumCounts (l : List (String × Int)) : Int :=
  (l.map Prod.snd).sum

/-- The most-common section: `max_num = sorted_data[0][1]`, then print every
key whose count equals `max_num`.  Empty for an empty ranked sequence (the
script would already have crashed reading `sorted_data[0]`). -/
def mostCommonSection (ranked : List (String × Int)) : List String :=
  match ranked with
  | [] => []
  | (_, c0) :: _ => (ranked.filter (fun p => p.2 = c0)).map Prod.fst

/-- The top-10% loop: print the key, subtract its count from the running
threshold, and break once the threshold is negative.  The first argument is
ten times the running threshold `total` (an exact integer), so
`total -= count` is `t10 - 10 * c` and `total < 0` is `t10 - 10 * c < 0`. -/
def top10loop : Int → List (String × Int) → List String
  | _, [] => []
  | t10, (k, c) :: rest =>
    if t10 - 10 * c < 0 then [k] else k :: top10loop (t10 - 10 * c) rest

/-- The top-10% section: run the loop with the threshold
`total = num * 0.1`, i.e. `10 * total = num`. -/
def top10section (ranked : List (String × Int)) : List String :=
  top10loop (sumCounts ranked) ranked

/-- The printing phase of the script on the ranked sequence: the banner with
the total, the most-common section, and the top-10% section, as the list of
printed lines.  On an empty ranked sequence `sorted_data[0]` raises
`IndexError` before either statistics section is produced. -/
def report (ranked : List (String × Int)) : Except String (List String) :=
  match ranked with
  | [] => .error "IndexError: list index out of range"
  | _ =>
    .ok (["the total number of bigrams: " ++ toString (sumCounts ranked),
          "the most common bigram: "]
         ++ mostCommonSection ranked
         ++ ["the number of bigrams required to add up to 10% of all bigrams"]
         ++ top10section ranked)

/-- The whole script on the contents of the `result` file: aggregate, rank,
report. -/
def run (lines : List String) : Except String (List String) :=
  match loadLines lines with
  | .ok t => report (rank t)
  | .error e => .error e

/-- The exception message the loop body raises on a malformed line:
`IndexError` when the line has fewer than three tokens, `ValueError` when it
has three tokens but the third is not an integer literal. -/
def lineErrMsg (line : String) : String :=
  match pySplit line with
  | _ :: _ :: _ :: _ => "ValueError: invalid literal for int()"
  | _ => "IndexError: list index out of range"

/-- Worded from the specification, for comparison with the code: `s` is the
count sum of some nonempty prefix of `ranked`, `s` is at least the threshold
`th`, and `s` is the smallest prefix count sum that is at least `th`.  The
specification asserts this of the count sum of the top-10% section with
`th = 0.1 * total`. -/
def isSmallestPrefixSumGE (ranked : List (String × Int)) (th : ℚ) (s : Int) : Prop :=
  (∃ k, 1 ≤ k ∧ k ≤ ranked.length ∧ sumCounts (ranked.take k) = s) ∧
  th ≤ (s : ℚ) ∧
  ∀ j, 1 ≤ j → j ≤ ranked.length → th ≤ (sumCounts (ranked.take j) : ℚ) →
    s ≤ sumCounts (ranked.take j)

/-- Ten tied entries of count 1: a non-empty ranked sequence (descending,
all counts equal) on which the top-10% loop emits two keys although the
prefix of length one already has count sum `0.1 * total = 1`. -/
def ranked10 : List (String × Int) :=
  [("b0", 1), ("b1", 1), ("b2", 1), ("b3", 1), ("b4", 1),
   ("b5", 1), ("b6", 1), ("b7", 1), ("b8", 1), ("b9", 1)]

unseal List.merge List.mergeSort

example : pySplit "the cat  5 " = ["the", "cat", "5"] := by decide
example : pyToInt "-5" = some (-5) := by decide
example : pyToInt "5.0" = none := by decide
example : pyToInt "" = none := by decide
example : pyParseLine "the cat 5" = some ("the cat", 5) := by decide
example : loadLines ["a b 3", "a b 5"] = .ok [("a b", 5)] := rfl
example : rank [("a b", 1), ("c d", 3)] = [("c d", 3), ("a b", 1)] := rfl
example :
    run ["the cat 5", "cat sat 3", "sat mat 3"] =
      .ok ["the total number of bigrams: 11", "the most common bigram: ",
           "the cat",
           "the number of bigrams required to add up to 10% of all bigrams",
           "the cat"] := rfl

example : top10section ranked10 = ["b0", "b1"] := by decide

/-! Helper lemmas about the embedded operations. -/

theorem sumCounts_nil : sumCounts [] = 0 := rfl

theorem sumCounts_cons (k : String) (c : Int) (l : List (String × Int)) :
    sumCounts ((k, c) :: l) = c + sumCounts l := by
  simp [sumCounts]

theorem tableGet_dictInsert_self (k : String) (v : Int) (t : Table) :
    tableGet k (dictInsert k v t) = some v := by
  induction t with
  | nil => simp [dictInsert, tableGet]
  | cons p rest ih =>
    obtain ⟨k', v'⟩ := p
    by_cases h : k' = k
    · simp [dictInsert, tableGet, h]
    · simp [dictInsert, tableGet, h, ih]

theorem tableGet_dictInsert_ne (k q : String) (v : Int) (t : Table) (h : q ≠ k) :
    tableGet q (dictInsert k v t) = tableGet q t := by
  have hk : ¬ k = q := fun e => h e.symm
  induction t with
  | nil => simp [dictInsert, tableGet, hk]
  | cons p rest ih =>
    obtain ⟨k', v'⟩ := p
    by_cases hkk : k' = k
    · subst hkk
      simp [dictInsert, tableGet, hk]
    · by_cases hq : k' = q <;> simp [dictInsert, tableGet, hkk, hq, h, ih]

theorem mem_keys_dictInsert (a k : String) (v : Int) (t : Table) :
    a ∈ (dictInsert k v t).map Prod.fst ↔ a = k ∨ a ∈ t.map Prod.fst := by
  induction t with
  | nil => simp [dictInsert]
  | cons p rest ih =>
    obtain ⟨k', v'⟩ := p
    by_cases h : k' = k
    · subst h
      simp [dictInsert]
    · simp [dictInsert, h, ih]
      tauto

theorem nodup_keys_dictInsert (k : String) (v : Int) (t : Table)
    (h : (t.map Prod.fst).Nodup) : ((dictInsert k v t).map Prod.fst).Nodup := by
  induction t with
  | nil => simp [dictInsert]
  | cons p rest ih =>
    obtain ⟨k', v'⟩ := p
    simp only [List.map_cons, List.nodup_cons] at h
    by_cases hk : k' = k
    · subst hk
      simpa [dictInsert, List.nodup_cons] using h
    · have hrest := ih h.2
      simp only [dictInsert, hk, if_false, List.map_cons, List.nodup_cons]
      refine ⟨?_, hrest⟩
      rw [mem_keys_dictInsert]
      rintro (rfl | hmem)
      · exact hk rfl
      · exact h.1 hmem

theorem tableGet_eq_none_iff (k : String) (t : Table) :
    tableGet k t = none ↔ ∀ p ∈ t, p.1 ≠ k := by
  induction t with
  | nil => simp [tableGet]
  | cons p rest ih =>
    obtain ⟨k', v'⟩ := p
    by_cases h : k' = k
    · subst h
      simp [tableGet]
    · simp [tableGet, h, ih]

theorem sumCounts_dictInsert_fresh (k : String) (v : Int) (t : Table)
    (h : tableGet k t = none) : sumCounts (dictInsert k v t) = sumCounts t + v := by
  induction t with
  | nil => simp [dictInsert, sumCounts]
  | cons p rest ih =>
    obtain ⟨k', v'⟩ := p
    by_cases hk : k' = k
    · subst hk
      simp [tableGet] at h
    · rw [tableGet, if_neg hk] at h
      rw [dictInsert, if_neg hk, sumCounts_cons, sumCounts_cons, ih h]
      omega
example : run [] = .error "IndexError: list index out of range" := rfl

theorem loadStep_char (t : Table) (line : String) :
    loadStep t line =
      match pyParseLine line with
      | some (k, v) => .ok (dictInsert k v t)
      | none => .error (lineErrMsg line) := by
  unfold loadStep pyParseLine lineErrMsg
  cases hs : pySplit line with
  | nil => rfl
  | cons t0 r1 =>
    cases r1 with
    | nil => rfl
    | cons t1 r2 =>
      cases r2 with
      | nil => rfl
      | cons t2 r3 => cases hp : pyToInt t2 <;> simp [hp]

theorem loadStep_ok_of_parse {line : String} {k : String} {v : Int} (t : Table)
    (h : pyParseLine line = some (k, v)) :
    loadStep t line = .ok (dictInsert k v t) := by
  rw [loadStep_char, h]

theorem loadStep_error_of_parse {line : String} (t : Table)
    (h : pyParseLine line = none) :
    loadStep t line = .error (lineErrMsg line) := by
  rw [loadStep_char, h]

theorem loadFrom_cons_ok {t : Table} {line : String} {k : String} {v : Int}
    (rest : List String) (h : pyParseLine line = some (k, v)) :
    loadFrom t (line :: rest) = loadFrom (dictInsert k v t) rest := by
  simp only [loadFrom, loadStep_ok_of_parse t h]

theorem loadFrom_cons_error {t : Table} {line : String}
    (rest : List String) (h : pyParseLine line = none) :
    loadFrom t (line :: rest) = .error (lineErrMsg line) := by
  simp only [loadFrom, loadStep_error_of_parse t h]

theorem loadFrom_error_iff (t : Table) (lines : List String) :
    (∃ e, loadFrom t lines = .error e) ↔ ∃ l ∈ lines, pyParseLine l = none := by
  induction lines generalizing t with
  | nil => simp [loadFrom]
  | cons l ls ih =>
    cases hp : pyParseLine l with
    | none =>
      rw [loadFrom_cons_error ls hp]
      constructor
      · intro _
        exact ⟨l, by simp, hp⟩
      · intro _
        exact ⟨lineErrMsg l, rfl⟩
    | some kv =>
      obtain ⟨k, v⟩ := kv
      rw [loadFrom_cons_ok ls hp, ih]
      simp [hp]

theorem loadFrom_first_bad (t : Table) (pre : List String) (bad : String)
    (rest : List String) (hpre : ∀ l ∈ pre, pyParseLine l ≠ none)
    (hbad : pyParseLine bad = none) :
    loadFrom t (pre ++ bad :: rest) = .error (lineErrMsg bad) := by
  induction pre generalizing t with
  | nil => exact loadFrom_cons_error rest hbad
  | cons l ls ih =>
    have hl := hpre l (by simp)
    cases hp : pyParseLine l with
    | none => exact absurd hp hl
    | some kv =>
      obtain ⟨k, v⟩ := kv
      rw [List.cons_append, loadFrom_cons_ok _ hp]
      exact ih _ (fun x hx => hpre x (by simp [hx]))

theorem loadFrom_append_ok {t r : Table} {xs ys : List String}
    (h : loadFrom t (xs ++ ys) = .ok r) :
    ∃ m, loadFrom t xs = .ok m ∧ loadFrom m ys = .ok r := by
  induction xs generalizing t with
  | nil => exact ⟨t, rfl, h⟩
  | cons l ls ih =>
    cases hp : pyParseLine l with
    | none =>
      rw [List.cons_append, loadFrom_cons_error (ls ++ ys) hp] at h
      exact absurd h (by simp)
    | some kv =>
      obtain ⟨k, v⟩ := kv
      rw [List.cons_append, loadFrom_cons_ok (ls ++ ys) hp] at h
      obtain ⟨m, hm1, hm2⟩ := ih h
      exact ⟨m, by rw [loadFrom_cons_ok ls hp]; exact hm1, hm2⟩

theorem tableGet_loadFrom {t t' : Table} {q : String} {lines : List String}
    (hq : ∀ l ∈ lines, ∀ k v, pyParseLine l = some (k, v) → k ≠ q)
    (hok : loadFrom t lines = .ok t') : tableGet q t' = tableGet q t := by
  induction lines generalizing t with
  | nil => cases hok; rfl
  | cons l ls ih =>
    cases hp : pyParseLine l with
    | none =>
      rw [loadFrom_cons_error ls hp] at hok
      exact absurd hok (by simp)
    | some kv =>
      obtain ⟨k, v⟩ := kv
      rw [loadFrom_cons_ok ls hp] at hok
      have hk : k ≠ q := hq l (by simp) k v hp
      rw [ih (fun x hx => hq x (by simp [hx])) hok,
        tableGet_dictInsert_ne k q v t (fun e => hk e.symm)]

theorem nodup_keys_loadFrom {t t' : Table} {lines : List String}
    (h : (t.map Prod.fst).Nodup) (hok : loadFrom t lines = .ok t') :
    (t'.map Prod.fst).Nodup := by
  induction lines generalizing t with
  | nil => cases hok; exact h
  | cons l ls ih =>
    cases hp : pyParseLine l with
    | none =>
      rw [loadFrom_cons_error ls hp] at hok
      exact absurd hok (by simp)
    | some kv =>
      obtain ⟨k, v⟩ := kv
      rw [loadFrom_cons_ok ls hp] at hok
      exact ih (nodup_keys_dictInsert k v t h) hok

theorem pyParseLine_eq_none_iff (l : String) :
    pyParseLine l = none ↔
      (pySplit l).length < 3 ∨ pyToInt ((pySplit l).getD 2 "") = none := by
  unfold pyParseLine
  cases hs : pySplit l with
  | nil => simp
  | cons t0 r1 =>
    cases r1 with
    | nil => simp
    | cons t1 r2 =>
      cases r2 with
      | nil => simp [List.getD]
      | cons t2 r3 => simp [List.getD]

theorem rank_perm (t : Table) : (rank t).Perm t :=
  (List.reverse_perm _).trans (List.mergeSort_perm t _)

theorem sumCounts_rank (t : Table) : sumCounts (rank t) = sumCounts t :=
  ((rank_perm t).map Prod.snd).sum_eq

theorem rank_length (t : Table) : (rank t).length = t.length :=
  (rank_perm t).length_eq

theorem rank_ne_nil {t : Table} (h : t ≠ []) : rank t ≠ [] := by
  intro h0
  apply h
  have hl := rank_length t
  rw [h0] at hl
  exact (List.length_eq_zero.mp hl.symm)

theorem rank_sorted (t : Table) :
    (rank t).Pairwise (fun a b => b.2 ≤ a.2) := by
  unfold rank
  rw [List.pairwise_reverse]
  refine List.Pairwise.imp ?_ (List.sorted_mergeSort ?_ ?_ t)
  · intro a b hab
    exact of_decide_eq_true hab
  · intro a b c hab hbc
    exact decide_eq_true
      (le_trans (of_decide_eq_true hab) (of_decide_eq_true hbc))
  · intro a b
    rcases le_total a.2 b.2 with h | h <;> simp [h]

theorem head_count_max {k0 : String} {c0 : Int} {tl : List (String × Int)}
    (h : ((k0, c0) :: tl).Pairwise (fun a b => b.2 ≤ a.2)) :
    ∀ p ∈ (k0, c0) :: tl, p.2 ≤ c0 := by
  intro p hp
  rcases List.mem_cons.mp hp with rfl | hp
  · exact le_refl _
  · exact (List.pairwise_cons.mp h).1 p hp

theorem top10loop_spec (l : List (String × Int)) (t10 : Int) (hne : l ≠ []) :
    ∃ k, 1 ≤ k ∧ k ≤ l.length ∧
      top10loop t10 l = (l.take k).map Prod.fst ∧
      (∀ j, 1 ≤ j → j < k → 0 ≤ t10 - 10 * sumCounts (l.take j)) ∧
      (t10 - 10 * sumCounts (l.take k) < 0 ∨ k = l.length) := by
  induction l generalizing t10 with
  | nil => exact absurd rfl hne
  | cons p rest ih =>
    obtain ⟨key, c⟩ := p
    by_cases hc : t10 - 10 * c < 0
    · refine ⟨1, le_refl 1, by simp, ?_, ?_, ?_⟩
      · simp [top10loop, hc]
      · intro j h1 h2
        omega
      · left
        rw [List.take_succ_cons, List.take_zero, sumCounts_cons, sumCounts_nil]
        omega
    · by_cases hr : rest = []
      · subst hr
        refine ⟨1, le_refl 1, by simp, ?_, ?_, ?_⟩
        · simp [top10loop, hc]
        · intro j h1 h2
          omega
        · right
          simp
      · obtain ⟨k', h1, hlen, hemit, hprev, hstop⟩ := ih (t10 - 10 * c) hr
        refine ⟨k' + 1, by omega, by simp; omega, ?_, ?_, ?_⟩
        · rw [List.take_succ_cons, List.map_cons, ← hemit]
          simp [top10loop, hc]
        · intro j hj1 hjk
          cases j with
          | zero => omega
          | succ j' =>
            cases j' with
            | zero =>
              simp only [List.take_succ_cons, List.take_zero, sumCounts_cons,
                sumCounts_nil]
              omega
            | succ j2 =>
              have hj' : 1 ≤ j2 + 1 := by omega
              have hjk' : j2 + 1 < k' := by omega
              have := hprev (j2 + 1) hj' hjk'
              rw [List.take_succ_cons, sumCounts_cons]
              omega
        · rcases hstop with hs | hs
          · left
            rw [List.take_succ_cons, sumCounts_cons]
            omega
          · right
            simp [hs]

theorem cast_le_tenth_iff (a b : Int) :
    (a : ℚ) ≤ (b : ℚ) * (1 / 10) ↔ 0 ≤ b - 10 * a := by
  rw [mul_one_div, le_div_iff₀ (by norm_num : (0 : ℚ) < 10)]
  rw [show ((a : ℚ) * 10) = ((10 * a : Int) : ℚ) by push_cast; ring]
  rw [Int.cast_le]
  omega

theorem tenth_lt_cast_iff (a b : Int) :
    (b : ℚ) * (1 / 10) < (a : ℚ) ↔ b - 10 * a < 0 := by
  rw [mul_one_div, div_lt_iff₀ (by norm_num : (0 : ℚ) < 10)]
  rw [show ((a : ℚ) * 10) = ((10 * a : Int) : ℚ) by push_cast; ring]
  rw [Int.cast_lt]
  omega

theorem top10loop_all_zero (l : List (String × Int)) (t10 : Int) (h0 : 0 ≤ t10)
    (hz : ∀ p ∈ l, p.2 = 0) : top10loop t10 l = l.map Prod.fst := by
  induction l with
  | nil => rfl
  | cons p rest ih =>
    obtain ⟨key, c⟩ := p
    have hc : c = 0 := hz (key, c) (by simp)
    subst hc
    have hlt : ¬ t10 - 10 * 0 < 0 := by omega
    simp only [top10loop, hlt, if_false, List.map_cons]
    rw [show t10 - 10 * 0 = t10 by omega]
    rw [ih (fun q hq => hz q (by simp [hq]))]

/-! The claims. -/

/-- C1, counterexample to the claim as stated: on the non-empty ranked
sequence `ranked10` (ten tied entries of count 1, total 10, threshold
`0.1 * total = 1`) the top-10% section is `["b0", "b1"]` with count sum 2,
yet the prefix of length one already has count sum `1 ≥ 1`, so the section's
count sum is not the smallest prefix sum that is at least `0.1 * total`: the
loop only stops once the running threshold becomes strictly negative, i.e.
at the smallest prefix sum strictly greater than `0.1 * total`. -/
theorem claim1_counterexample :
    ¬ isSmallestPrefixSumGE ranked10 ((sumCounts ranked10 : ℚ) * (1 / 10))
        (sumCounts (ranked10.take (top10section ranked10).length)) := by
  intro h
  obtain ⟨-, -, hmin⟩ := h
  have e1 : sumCounts (ranked10.take (top10section ranked10).length) = 2 := by decide
  have e2 : sumCounts (ranked10.take 1) = 1 := by decide
  have e3 : sumCounts ranked10 = 10 := by decide
  have hth : (sumCounts ranked10 : ℚ) * (1 / 10) ≤ (sumCounts (ranked10.take 1) : ℚ) := by
    rw [e2, e3]
    norm_num
  have h1 := hmin 1 le_rfl (by decide) hth
  rw [e1, e2] at h1
  omega

/-- C1 (amended): for every non-empty ranked sequence, the keys emitted in
the top-10% section form a prefix of the ranked sequence whose count sum is
the smallest prefix sum strictly greater than `0.1 * total` (the whole
sequence is emitted when no prefix sum exceeds the threshold): walking the
ranked sequence, each key is emitted and its count subtracted from a running
threshold initialized to `0.1 * total`, and emission stops, inclusive of the
entry that drives the threshold negative, as soon as the running threshold
becomes negative.  Formally: the section is `take k` for some `k ≥ 1`; every
shorter non-empty prefix has count sum at most `0.1 * total` (so the loop
had not yet stopped there); and either the emitted prefix's count sum
strictly exceeds `0.1 * total` or the whole sequence was emitted. -/
theorem claim1_top10_amended (ranked : List (String × Int)) (hne : ranked ≠ []) :
    ∃ k, 1 ≤ k ∧ k ≤ ranked.length ∧
      top10section ranked = (ranked.take k).map Prod.fst ∧
      (∀ j, 1 ≤ j → j < k →
        (sumCounts (ranked.take j) : ℚ) ≤ (sumCounts ranked : ℚ) * (1 / 10)) ∧
      ((sumCounts ranked : ℚ) * (1 / 10) < (sumCounts (ranked.take k) : ℚ) ∨
        k = ranked.length) := by
  obtain ⟨k, h1, hlen, hemit, hprev, hstop⟩ :=
    top10loop_spec ranked (sumCounts ranked) hne
  refine ⟨k, h1, hlen, hemit, ?_, ?_⟩
  · intro j hj1 hjk
    rw [cast_le_tenth_iff]
    exact hprev j hj1 hjk
  · rcases hstop with hs | hs
    · left
      rw [tenth_lt_cast_iff]
      exact hs
    · right
      exact hs

/-- Witness for C1 (amended) at the concrete ranked sequence `ranked10`. -/
theorem claim1_witness :
    ∃ k, 1 ≤ k ∧ k ≤ ranked10.length ∧
      top10section ranked10 = (ranked10.take k).map Prod.fst ∧
      (∀ j, 1 ≤ j → j < k →
        (sumCounts (ranked10.take j) : ℚ) ≤ (sumCounts ranked10 : ℚ) * (1 / 10)) ∧
      ((sumCounts ranked10 : ℚ) * (1 / 10) < (sumCounts (ranked10.take k) : ℚ) ∨
        k = ranked10.length) :=
  claim1_top10_amended ranked10 (by decide)

/-- C2: for every non-empty aggregate table, the most-common section of its
ranked sequence contains a key exactly when the key appears in the ranked
sequence with a count that bounds every count in it (i.e. equals the maximum
count), one key per line, and no other keys. -/
theorem claim2_most_common (d : Table) (hd : d ≠ []) :
    ∀ key, key ∈ mostCommonSection (rank d) ↔
      ∃ c : Int, (key, c) ∈ rank d ∧ ∀ p ∈ rank d, p.2 ≤ c := by
  have hne := rank_ne_nil hd
  obtain ⟨⟨k0, c0⟩, tl, hr⟩ : ∃ a tl, rank d = a :: tl := by
    cases hrk : rank d with
    | nil => exact absurd hrk hne
    | cons a tl => exact ⟨a, tl, rfl⟩
  have hsorted := rank_sorted d
  rw [hr] at hsorted
  have hmax := head_count_max hsorted
  intro key
  rw [hr]
  constructor
  · intro hmem
    simp only [mostCommonSection, List.mem_map, List.mem_filter,
      decide_eq_true_eq] at hmem
    obtain ⟨p, ⟨hp, hpc⟩, hpk⟩ := hmem
    subst hpk
    subst hpc
    exact ⟨p.2, hp, hmax⟩
  · rintro ⟨c, hmem, hcmax⟩
    have hc0 : c = c0 := le_antisymm (hmax _ hmem) (hcmax (k0, c0) (by simp))
    subst hc0
    simp only [mostCommonSection, List.mem_map, List.mem_filter,
      decide_eq_true_eq]
    exact ⟨(key, c), ⟨hmem, rfl⟩, rfl⟩

/-- Witness for C2 at the specification's example table. -/
theorem claim2_witness :
    "the cat" ∈
        mostCommonSection (rank [("the cat", 5), ("cat sat", 3), ("sat mat", 3)]) ↔
      ∃ c : Int, ("the cat", c) ∈ rank [("the cat", 5), ("cat sat", 3), ("sat mat", 3)] ∧
        ∀ p ∈ rank [("the cat", 5), ("cat sat", 3), ("sat mat", 3)], p.2 ≤ c :=
  claim2_most_common [("the cat", 5), ("cat sat", 3), ("sat mat", 3)] (by decide) "the cat"

/-- C3: duplicate bigram keys are resolved last-write-wins — after a
successful load of `pre ++ line :: post` where `line` stores `(key, v)` and
no later line stores under `key`, the table holds `v` for `key`; the table's
keys are unique; and the total `report` computes over the ranked sequence
equals the sum of counts across those unique keys. -/
theorem claim3_duplicate_overwrite (pre post : List String) (line key : String)
    (v : Int) (t : Table)
    (hline : pyParseLine line = some (key, v))
    (hpost : ∀ l ∈ post, ∀ k' v', pyParseLine l = some (k', v') → k' ≠ key)
    (hload : loadLines (pre ++ line :: post) = .ok t) :
    tableGet key t = some v ∧ (t.map Prod.fst).Nodup ∧
      sumCounts (rank t) = sumCounts t := by
  rw [loadLines] at hload
  obtain ⟨m, hm1, hm2⟩ := loadFrom_append_ok hload
  rw [loadFrom_cons_ok post hline] at hm2
  refine ⟨?_, ?_, sumCounts_rank t⟩
  · rw [tableGet_loadFrom hpost hm2, tableGet_dictInsert_self]
  · have h1 : (m.map Prod.fst).Nodup := nodup_keys_loadFrom (by simp) hm1
    exact nodup_keys_loadFrom (nodup_keys_dictInsert key v m h1) hm2

/-- Witness for C3: `a b 3` followed by `a b 5` leaves count 5 under `a b`,
and the total is 5, not 8. -/
theorem claim3_witness :
    (tableGet "a b" [("a b", 5)] = some 5 ∧
      ([(("a b" : String), (5 : Int))].map Prod.fst).Nodup ∧
      sumCounts (rank [("a b", 5)]) = sumCounts [("a b", 5)]) ∧
    sumCounts [(("a b" : String), (5 : Int))] = 5 :=
  ⟨claim3_duplicate_overwrite ["a b 3"] [] "a b 5" "a b" 5 [("a b", 5)]
      (by decide) (by simp) rfl,
    by decide⟩

/-- C4: `rank` produces a permutation of the table's entries that is sorted
by count in descending order, and hence preserves the sum of the counts. -/
theorem claim4_rank_perm_sorted (t : Table) :
    (rank t).Perm t ∧ (rank t).Pairwise (fun a b => b.2 ≤ a.2) ∧
      sumCounts (rank t) = sumCounts t :=
  ⟨rank_perm t, rank_sorted t, sumCounts_rank t⟩

/-- C5: on a line whose whitespace split has at least three tokens and whose
third token parses as an integer, the aggregation step stores that integer
under the key formed by joining tokens 0 and 1 with a single space,
overwriting any prior value for that key. -/
theorem claim5_load_line (t : Table) (line t0 t1 t2 : String)
    (rest : List String) (n : Int)
    (hsplit : pySplit line = t0 :: t1 :: t2 :: rest)
    (hn : pyToInt t2 = some n) :
    loadStep t line = .ok (dictInsert (t0 ++ " " ++ t1) n t) ∧
    tableGet (t0 ++ " " ++ t1) (dictInsert (t0 ++ " " ++ t1) n t) = some n := by
  constructor
  · have hp : pyParseLine line = some (t0 ++ " " ++ t1, n) := by
      simp [pyParseLine, hsplit, hn]
    exact loadStep_ok_of_parse t hp
  · exact tableGet_dictInsert_self _ _ _

/-- Witness for C5: loading `a b 3` over a table where `a b` maps to 1. -/
theorem claim5_witness :
    loadStep [("a b", 1)] "a b 3" =
      .ok (dictInsert ("a" ++ " " ++ "b") 3 [("a b", 1)]) ∧
    tableGet ("a" ++ " " ++ "b")
        (dictInsert ("a" ++ " " ++ "b") 3 [("a b", 1)]) = some 3 :=
  claim5_load_line [("a b", 1)] "a b 3" "a" "b" "3" [] 3 (by decide) (by decide)

/-- C6: the load fails if and only if some line has fewer than three
whitespace-separated tokens or a third token that is not parseable as an
integer; moreover the error is the one raised at the first offending line
and aborts the whole run regardless of the lines after it, with no table
produced. -/
theorem claim6_malformed (lines : List String) :
    ((∃ e, loadLines lines = .error e) ↔
      ∃ l ∈ lines,
        (pySplit l).length < 3 ∨ pyToInt ((pySplit l).getD 2 "") = none) ∧
    (∀ pre bad rest, lines = pre ++ bad :: rest →
      (∀ l ∈ pre,
        ¬((pySplit l).length < 3 ∨ pyToInt ((pySplit l).getD 2 "") = none)) →
      ((pySplit bad).length < 3 ∨ pyToInt ((pySplit bad).getD 2 "") = none) →
      loadLines lines = .error (lineErrMsg bad)) := by
  constructor
  · rw [loadLines, loadFrom_error_iff]
    constructor
    · rintro ⟨l, hl, hp⟩
      exact ⟨l, hl, (pyParseLine_eq_none_iff l).mp hp⟩
    · rintro ⟨l, hl, hp⟩
      exact ⟨l, hl, (pyParseLine_eq_none_iff l).mpr hp⟩
  · intro pre bad rest hsplit hpre hbad
    subst hsplit
    rw [loadLines]
    exact loadFrom_first_bad [] pre bad rest
      (fun l hl hn => hpre l hl ((pyParseLine_eq_none_iff l).mp hn))
      ((pyParseLine_eq_none_iff bad).mpr hbad)

/-- Witness for C6: the malformed second line `x` aborts the run at that
line even though a well-formed line follows it. -/
theorem claim6_witness :
    loadLines ["a b 3", "x", "c d 4"] = .error (lineErrMsg "x") :=
  (claim6_malformed ["a b 3", "x", "c d 4"]).2 ["a b 3"] "x" ["c d 4"] rfl
    (by decide) (by decide)

/-- C7: on an input with zero records the aggregate table and the ranked
sequence are empty, and the most-common step's read of `sorted_data[0]`
fails with an index-out-of-range error, so neither the most-common nor the
top-10% section is emitted. -/
theorem claim7_empty_input :
    loadLines [] = .ok [] ∧ rank [] = [] ∧
    report (rank []) = .error "IndexError: list index out of range" ∧
    run [] = .error "IndexError: list index out of range" :=
  ⟨rfl, rfl, rfl, rfl⟩

/-- C8: the pipeline is a deterministic function of the input file's
contents — two runs on the same lines produce identical output. -/
theorem claim8_deterministic (lines1 lines2 : List String) (h : lines1 = lines2) :
    run lines1 = run lines2 := by
  rw [h]

/-- Witness for C8 at the specification's example input. -/
theorem claim8_witness :
    run ["the cat 5", "cat sat 3", "sat mat 3"] =
      run ["the cat 5", "cat sat 3", "sat mat 3"] :=
  claim8_deterministic ["the cat 5", "cat sat 3", "sat mat 3"]
    ["the cat 5", "cat sat 3", "sat mat 3"] rfl

/-- C9: a line whose third token parses as a negative integer loads without
error, the negative count is stored in the table, and (for a key not yet
present) it contributes to the reported total. -/
theorem claim9_negative_count (t : Table) (line key : String) (n : Int)
    (hparse : pyParseLine line = some (key, n)) (_hneg : n < 0)
    (hfresh : tableGet key t = none) :
    loadStep t line = .ok (dictInsert key n t) ∧
    tableGet key (dictInsert key n t) = some n ∧
    sumCounts (rank (dictInsert key n t)) = sumCounts t + n := by
  refine ⟨loadStep_ok_of_parse t hparse, tableGet_dictInsert_self key n t, ?_⟩
  rw [sumCounts_rank, sumCounts_dictInsert_fresh key n t hfresh]

/-- Witness for C9: the line `a b -5` loads fine and drags the total of a
table previously holding 2 down to `2 + (-5)`. -/
theorem claim9_witness :
    pyToInt "-5" = some (-5) ∧
    (loadStep [("c d", 2)] "a b -5" = .ok (dictInsert "a b" (-5) [("c d", 2)]) ∧
      tableGet "a b" (dictInsert "a b" (-5) [("c d", 2)]) = some (-5) ∧
      sumCounts (rank (dictInsert "a b" (-5) [("c d", 2)])) =
        sumCounts [("c d", 2)] + (-5)) :=
  ⟨by decide,
    claim9_negative_count [("c d", 2)] "a b -5" "a b" (-5)
      (by decide) (by decide) (by decide)⟩

/-- C10: for every non-empty ranked sequence the top-10% section emits at
least one key, because each entry is printed before the threshold test; and
when every count is 0 the threshold starts at 0 and never goes negative, so
every key of the ranked sequence is emitted. -/
theorem claim10_at_least_one (ranked : List (String × Int)) (hne : ranked ≠ []) :
    1 ≤ (top10section ranked).length ∧
    ((∀ p ∈ ranked, p.2 = 0) → top10section ranked = ranked.map Prod.fst) := by
  constructor
  · cases ranked with
    | nil => exact absurd rfl hne
    | cons p rest =>
      obtain ⟨k, c⟩ := p
      by_cases hc : sumCounts ((k, c) :: rest) - 10 * c < 0 <;>
        simp [top10section, top10loop, hc]
  · intro hz
    have hsum : sumCounts ranked = 0 := by
      unfold sumCounts
      apply List.sum_eq_zero
      intro x hx
      obtain ⟨p, hp, rfl⟩ := List.mem_map.mp hx
      exact hz p hp
    unfold top10section
    rw [hsum]
    exact top10loop_all_zero ranked 0 le_rfl hz

/-- Witness for C10 at a one-entry ranked sequence with count 0. -/
theorem claim10_witness :
    1 ≤ (top10section [(("a b" : String), (0 : Int))]).length ∧
    ((∀ p ∈ [(("a b" : String), (0 : Int))], p.2 = 0) →
      top10section [(("a b" : String), (0 : Int))] =
        [(("a b" : String), (0 : Int))].map Prod.fst) :=
  claim10_at_least_one [("a b", 0)] (by decide)
